import Mathlib

/-!
# Verification of the `cosmic-ext-picross` puzzle core

Shallow embedding of the puzzle model of `cosmic-ext-picross`
(`src/app/game.rs`, plus the command dispatch of `Picross::update` in
`src/app.rs`), together with theorems settling the specification's claims.

Modelling conventions:
* Rust `Vec<Tile>` indexing panics when the index is out of range.  The
  panicking call sites in `update` (the `Reveal`, `Mark` arms, and the
  `.parse().unwrap()` calls of `StartPressed`) are embedded as functions
  returning `Option Game`, `none` standing for the panic/abort (the session
  state dies with the process, so no post-state exists).
* The random shuffle inside `Board::fill_boxes_randomly` (via
  `rand::thread_rng`) is externalized: the shuffled index list `ids` is a
  parameter, and theorems assume `ids` is a permutation of
  `0 .. width*height`, which is exactly what the source produces.
* Rust `usize` values are modelled by `Nat`; `str::parse::<usize>` by
  `parseNat?` below.
-/

set_option linter.unusedVariables false

namespace Picross

/-- `Tile` from game.rs: per-cell state.  The spec's `filled` is `!empty`. -/
structure Tile where
  hidden : Bool
  empty : Bool
  marked : Bool
  deriving DecidableEq

/-- `Winstate` from game.rs. -/
inductive Winstate where
  | Won
  | Lost
  | InProgress
  deriving DecidableEq

/-- `Menu` from game.rs. -/
structure Menu where
  width_input : String
  height_input : String
  start_pressed : Bool
  filled_count_input : String
  deriving DecidableEq

/-- `Board` from game.rs. -/
structure Board where
  board_vec : List Tile
  width : Nat
  height : Nat
  filled_count : Nat
  vertical_count : List (List Nat)
  horizontal_count : List (List Nat)
  deriving DecidableEq

/-- `Game` from game.rs. -/
structure Game where
  board : Board
  menu : Menu
  winstate : Winstate
  deriving DecidableEq

/-- `pair_to_index` from game.rs. -/
def pair_to_index (row column width : Nat) : Nat := row * width + column

/-- In-place update `vec[i] = f (vec[i])`.  Out of range this is a no-op,
where Rust panics; every call site below either bound-checks `i` first
(returning `none` for the panic) or runs under the invariant that all
indices are in range. -/
def modifyAt {α : Type} : List α → Nat → (α → α) → List α
  | [], _, _ => []
  | x :: xs, 0, f => f x :: xs
  | x :: xs, i + 1, f => x :: modifyAt xs i f

/-- `ids.iter().for_each(|&id| vec[id] = f (vec[id]))`. -/
def modifyAll {α : Type} (l : List α) (ids : List Nat) (f : α → α) : List α :=
  ids.foldl (fun acc i => modifyAt acc i f) l

/-- `Board::gen_empty`. -/
def Board.gen_empty (width height : Nat) : Board :=
  { board_vec := (List.range (width * height)).map fun _ => ⟨true, true, false⟩
    width := width
    height := height
    filled_count := 0
    vertical_count := []
    horizontal_count := [] }

/-- `Board::fill_boxes_randomly`.  In the source `ids` is `(0..w*h).collect()`
shuffled by `thread_rng`; here it is a parameter (see the module comment).
The write `board_vec[id].empty = false` is in range because every shuffled id
is below `w*h = board_vec.len()`. -/
def Board.fill_boxes_randomly (b : Board) (ids : List Nat) (filled_count : Nat) : Board :=
  { b with board_vec :=
      modifyAll b.board_vec (ids.take filled_count) fun t => { t with empty := false } }

/-- The three-case fold shared verbatim by `Board::count_vertical` and
`Board::count_horizontal`: the state is `(acc, consecutive)` and `i` scans
positions `0 .. n` along the line. -/
def count_line (n : Nat) (tile_is_empty : Nat → Bool) : List Nat :=
  ((List.range n).foldl
    (fun s i =>
      if 0 < s.2 ∧ tile_is_empty i = true then (s.1 ++ [s.2], 0)
      else if tile_is_empty i = false ∧ i = n - 1 then (s.1 ++ [s.2 + 1], s.2 + 1)
      else if tile_is_empty i = true then s
      else (s.1, s.2 + 1))
    (([] : List Nat), 0)).1

/-- `Board::count_vertical`.  The source reads
`board_vec[pair_to_index(row, column, width)]`, always in range for the
boards it is called on (`board_vec.len() = width*height`); `getD` supplies a
dummy tile out of range. -/
def Board.count_vertical (b : Board) : Board :=
  { b with vertical_count := (List.range b.width).map fun column =>
      count_line b.height fun row =>
        (b.board_vec.getD (pair_to_index row column b.width) ⟨true, true, false⟩).empty }

/-- `Board::count_horizontal`. -/
def Board.count_horizontal (b : Board) : Board :=
  { b with horizontal_count := (List.range b.height).map fun row =>
      count_line b.width fun column =>
        (b.board_vec.getD (pair_to_index row column b.width) ⟨true, true, false⟩).empty }

/-- `Board::new`, with the shuffle externalized into `ids`. -/
def Board.new (width height filled_count : Nat) (ids : List Nat) : Board :=
  let b := Board.gen_empty width height
  let b := b.fill_boxes_randomly ids filled_count
  let b := { b with filled_count := filled_count }
  let b := b.count_vertical
  b.count_horizontal

/-- The per-tile condition of the `all` closure in `Game::wincheck`:
`(tile.empty == false && tile.hidden == false) || (tile.empty == true && tile.hidden == true)`. -/
def wonPred (tile : Tile) : Bool :=
  (tile.empty == false && tile.hidden == false) || (tile.empty == true && tile.hidden == true)

/-- The per-tile condition of the `any` closure in `Game::wincheck`:
`tile.empty == true && tile.hidden == false`. -/
def lostPred (tile : Tile) : Bool :=
  tile.empty == true && tile.hidden == false

/-- `Game::wincheck`.  In the `Won` branch the source loops `id` over
`0 .. width*height` writing `board_vec[id].hidden = false`; that write would
panic when `width*height > board_vec.len()`, which never holds for boards
made by `Board::new`; theorems assume the length invariant where it
matters. -/
def Game.wincheck (g : Game) : Game :=
  if g.board.board_vec.all wonPred then
    { g with winstate := Winstate.Won, board := { g.board with board_vec := modifyAll g.board.board_vec (List.range (g.board.width * g.board.height)) fun t => { t with hidden := false } } }
  else if g.board.board_vec.any lostPred then
    { g with winstate := Winstate.Lost }
  else
    { g with winstate := Winstate.InProgress }

/-- `Message::Reveal(id)` arm of `Picross::update` (app.rs):
`board_vec[id].hidden = false` then `wincheck()`.  The Vec indexing panics
when `id` is out of range, modelled by `none`. -/
def Game.reveal (g : Game) (id : Nat) : Option Game :=
  if id < g.board.board_vec.length then
    some (Game.wincheck { g with board := { g.board with board_vec := modifyAt g.board.board_vec id fun t => { t with hidden := false } } })
  else none

/-- `Message::Mark(id)` arm of `Picross::update`: toggle
`board_vec[id].marked` then `wincheck()`; panics (modelled `none`) when `id`
is out of range. -/
def Game.mark (g : Game) (id : Nat) : Option Game :=
  if id < g.board.board_vec.length then
    some (Game.wincheck { g with board := { g.board with board_vec := modifyAt g.board.board_vec id fun t => { t with marked := !t.marked } } })
  else none

/-- `str::parse::<usize>()`, modelled over the string's character list: all
characters must be decimal digits and the string non-empty (the `+` prefix
and the overflow failure of `usize` parsing are irrelevant to the claims).
(`String.toNat?` itself is avoided only because its `String`-iterator
implementation does not reduce in the kernel.) -/
def parseNat? (s : String) : Option Nat :=
  match s.data with
  | [] => none
  | cs =>
    if cs.all (fun c => c.isDigit) then
      some (cs.foldl (fun n c => n * 10 + (c.toNat - 48)) 0)
    else none

/-- `Message::StartPressed` arm of `Picross::update`: the three
`.parse().unwrap()` calls abort on parse failure, modelled by `none` (the
field writes preceding the failing unwrap die with the process, so no
post-state exists).  On success the board is rebuilt by `Board::new`
(shuffle externalized into `ids`) and `menu.start_pressed` is set. -/
def Game.startPressed (g : Game) (ids : List Nat) : Option Game :=
  match parseNat? g.menu.width_input, parseNat? g.menu.height_input,
        parseNat? g.menu.filled_count_input with
  | some w, some h, some k =>
      some { g with board := Board.new w h k ids,
                    menu := { g.menu with start_pressed := true } }
  | _, _, _ => none

/-- Number of filled cells of a cell vector (spec: `count(filled=true)`). -/
def countFilled (bv : List Tile) : Nat := bv.countP fun t => !t.empty

/-- Scan-based clue specification, following §4.2 of the specification
word for word: walk the filled pattern (`true` = filled) keeping a run
counter, emitting the counter at each run end. -/
def runLengthsAux : List Bool → Nat → List Nat
  | [], 0 => []
  | [], run + 1 => [run + 1]
  | false :: rest, 0 => runLengthsAux rest 0
  | false :: rest, run + 1 => (run + 1) :: runLengthsAux rest 0
  | true :: rest, run => runLengthsAux rest (run + 1)

/-- The ordered maximal-run lengths of a filled pattern. -/
def runLengths (pat : List Bool) : List Nat := runLengthsAux pat 0

/-- Filled pattern of column `column`, top to bottom (`true` = filled). -/
def Board.colPattern (b : Board) (column : Nat) : List Bool :=
  (List.range b.height).map fun row =>
    !(b.board_vec.getD (pair_to_index row column b.width) ⟨true, true, false⟩).empty

/-- Filled pattern of row `row`, left to right (`true` = filled). -/
def Board.rowPattern (b : Board) (row : Nat) : List Bool :=
  (List.range b.width).map fun column =>
    !(b.board_vec.getD (pair_to_index row column b.width) ⟨true, true, false⟩).empty

/-! ## Basic lemmas about the in-place-update helpers -/

theorem length_modifyAt {α : Type} (l : List α) (a : Nat) (f : α → α) :
    (modifyAt l a f).length = l.length := by
  induction l generalizing a with
  | nil => rfl
  | cons x xs ih =>
    cases a with
    | zero => rfl
    | succ i => simp [modifyAt, ih]

theorem modifyAt_getElem? {α : Type} (l : List α) (a : Nat) (f : α → α) (i : Nat) :
    (modifyAt l a f)[i]? = if i = a then (l[i]?).map f else l[i]? := by
  induction l generalizing a i with
  | nil => simp [modifyAt]
  | cons x xs ih =>
    cases a with
    | zero =>
      cases i with
      | zero => simp [modifyAt]
      | succ j => simp [modifyAt]
    | succ a' =>
      cases i with
      | zero => simp [modifyAt]
      | succ j => simpa [modifyAt] using ih a' j

theorem modifyAll_cons {α : Type} (l : List α) (a : Nat) (ids : List Nat) (f : α → α) :
    modifyAll l (a :: ids) f = modifyAll (modifyAt l a f) ids f := rfl

theorem length_modifyAll {α : Type} (l : List α) (ids : List Nat) (f : α → α) :
    (modifyAll l ids f).length = l.length := by
  induction ids generalizing l with
  | nil => rfl
  | cons a rest ih => rw [modifyAll_cons, ih, length_modifyAt]

theorem modifyAll_getElem? {α : Type} (ids : List Nat) (l : List α) (f : α → α)
    (hf : ∀ x, f (f x) = f x) (i : Nat) :
    (modifyAll l ids f)[i]? = if i ∈ ids then (l[i]?).map f else l[i]? := by
  induction ids generalizing l with
  | nil => simp [modifyAll]
  | cons a rest ih =>
    rw [modifyAll_cons, ih, modifyAt_getElem?]
    by_cases hmem : i ∈ rest
    · by_cases hia : i = a
      · subst hia
        cases o : l[i]? <;> simp [hmem, o, hf]
      · simp [hmem, hia]
    · by_cases hia : i = a
      · subst hia
        simp [hmem]
      · simp [hmem, hia, List.mem_cons]

theorem modifyAt_forall_mem {α : Type} (p : α → Prop) (f : α → α)
    (hpf : ∀ x, p x → p (f x)) :
    ∀ (l : List α) (a : Nat), (∀ x ∈ l, p x) → ∀ x ∈ modifyAt l a f, p x := by
  intro l
  induction l with
  | nil => intro a h x hx; cases hx
  | cons y ys ih =>
    intro a h x hx
    cases a with
    | zero =>
      rcases List.mem_cons.mp hx with hx | hx
      · exact hx ▸ hpf y (h y (by simp))
      · exact h x (by simp [hx])
    | succ a' =>
      rcases List.mem_cons.mp hx with hx | hx
      · exact hx ▸ h y (by simp)
      · exact ih a' (fun z hz => h z (by simp [hz])) x hx

theorem modifyAt_exists_mem {α : Type} (p : α → Prop) (f : α → α)
    (hpf : ∀ x, p x → p (f x)) :
    ∀ (l : List α) (a : Nat), (∃ x ∈ l, p x) → ∃ x ∈ modifyAt l a f, p x := by
  intro l
  induction l with
  | nil => intro a h; exact absurd h (by simp)
  | cons y ys ih =>
    intro a h
    rcases h with ⟨x, hx, hpx⟩
    cases a with
    | zero =>
      rcases List.mem_cons.mp hx with hx | hx
      · exact ⟨f y, by simp [modifyAt], hpf y (hx ▸ hpx)⟩
      · exact ⟨x, by simp [modifyAt, hx], hpx⟩
    | succ a' =>
      rcases List.mem_cons.mp hx with hx | hx
      · exact ⟨y, by simp [modifyAt], hx ▸ hpx⟩
      · obtain ⟨z, hz, hpz⟩ := ih a' ⟨x, hx, hpx⟩
        exact ⟨z, by simp [modifyAt, hz], hpz⟩

theorem all_modifyAt (l : List Tile) (a : Nat) (f : Tile → Tile) (p : Tile → Bool)
    (hp : ∀ x, p (f x) = p x) : (modifyAt l a f).all p = l.all p := by
  induction l generalizing a with
  | nil => rfl
  | cons y ys ih =>
    cases a with
    | zero => simp [modifyAt, hp]
    | succ a' => simp [modifyAt, ih]

theorem any_modifyAt (l : List Tile) (a : Nat) (f : Tile → Tile) (p : Tile → Bool)
    (hp : ∀ x, p (f x) = p x) : (modifyAt l a f).any p = l.any p := by
  induction l generalizing a with
  | nil => rfl
  | cons y ys ih =>
    cases a with
    | zero => simp [modifyAt, hp]
    | succ a' => simp [modifyAt, ih]

theorem modifyAt_modifyAt_self {α : Type} (l : List α) (a : Nat) (f : α → α)
    (hf : ∀ x, f (f x) = x) : modifyAt (modifyAt l a f) a f = l := by
  induction l generalizing a with
  | nil => rfl
  | cons y ys ih =>
    cases a with
    | zero => simp [modifyAt, hf]
    | succ a' => simp [modifyAt, ih]

/-! ## The clue fold computes run lengths -/

theorem count_line_go (em : Nat → Bool) (n : Nat) :
    ∀ (m j : Nat), j + m = n → 0 < m → ∀ (acc : List Nat) (run : Nat),
      ((List.range' j m).foldl
        (fun s i =>
          if 0 < s.2 ∧ em i = true then (s.1 ++ [s.2], 0)
          else if em i = false ∧ i = n - 1 then (s.1 ++ [s.2 + 1], s.2 + 1)
          else if em i = true then s
          else (s.1, s.2 + 1))
        (acc, run)).1
      = acc ++ runLengthsAux ((List.range' j m).map fun i => !em i) run := by
  intro m
  induction m with
  | zero => intro j hj h0; exact absurd h0 (by omega)
  | succ m' ih =>
    cases m' with
    | zero =>
      intro j hj h0 acc run
      have hj1 : j = n - 1 := by omega
      subst hj1
      cases hem : em (n - 1) with
      | false =>
        simp [List.range'_succ, hem, runLengthsAux]
      | true =>
        cases run with
        | zero => simp [List.range'_succ, hem, runLengthsAux]
        | succ r => simp [List.range'_succ, hem, runLengthsAux]
    | succ m'' =>
      intro j hj h0 acc run
      have hne : ¬ j = n - 1 := by omega
      rw [List.range'_succ]
      cases hem : em j with
      | false =>
        have h := ih (j + 1) (by omega) (by omega) acc (run + 1)
        simp only [List.foldl_cons, List.map_cons, hem, Bool.not_false, runLengthsAux]
        simpa [hne] using h
      | true =>
        cases run with
        | zero =>
          have h := ih (j + 1) (by omega) (by omega) acc 0
          simp only [List.foldl_cons, List.map_cons, hem, Bool.not_true, runLengthsAux]
          simpa using h
        | succ r =>
          have h := ih (j + 1) (by omega) (by omega) (acc ++ [r + 1]) 0
          simp only [List.foldl_cons, List.map_cons, hem, Bool.not_true, runLengthsAux]
          simpa using h

theorem count_line_eq (n : Nat) (em : Nat → Bool) :
    count_line n em = runLengths ((List.range n).map fun i => !em i) := by
  cases n with
  | zero => rfl
  | succ n' =>
    unfold count_line runLengths
    rw [List.range_eq_range']
    simpa using count_line_go em (n' + 1) (n' + 1) 0 (by omega) (by omega) [] 0

/-- C2: each entry of the column clue vector (and symmetrically each entry of
the row clue vector) is exactly the ordered sequence of maximal-run lengths of
consecutive filled cells along that line, in scan order (top-to-bottom for
columns, left-to-right for rows), as computed by the scan specification
`runLengths`.  An empty line gives `[]` and a full line gives `[line_length]`
because `runLengths` does (the witness instantiates the `F,F,E,F,E,F,F,F`
column of scenario S3, giving `[2,1,3]`). -/
theorem clue_vectors_are_run_lengths (b : Board) (c r : Nat)
    (hc : c < b.width) (hr : r < b.height) :
    (b.count_vertical).vertical_count[c]? = some (runLengths (b.colPattern c))
    ∧ (b.count_horizontal).horizontal_count[r]? = some (runLengths (b.rowPattern r)) := by
  constructor
  · show ((List.range b.width).map _)[c]? = _
    rw [List.getElem?_map, List.getElem?_range hc]
    simp [count_line_eq, Board.colPattern]
  · show ((List.range b.height).map _)[r]? = _
    rw [List.getElem?_map, List.getElem?_range hr]
    simp [count_line_eq, Board.rowPattern]

/-- Concrete board whose single column has filled pattern F,F,E,F,E,F,F,F. -/
def s3Board : Board :=
  { board_vec := [⟨true, false, false⟩, ⟨true, false, false⟩, ⟨true, true, false⟩,
      ⟨true, false, false⟩, ⟨true, true, false⟩, ⟨true, false, false⟩,
      ⟨true, false, false⟩, ⟨true, false, false⟩]
    width := 1
    height := 8
    filled_count := 6
    vertical_count := []
    horizontal_count := [] }

/-- Witness for C2 at scenario S3: the column pattern F,F,E,F,E,F,F,F yields
the clue sequence `[2,1,3]`. -/
theorem clue_vectors_are_run_lengths_witness :
    0 < s3Board.width ∧ 0 < s3Board.height
      ∧ (s3Board.count_vertical).vertical_count[0]? = some [2, 1, 3] := by
  refine ⟨by decide, by decide, ?_⟩
  have h := (clue_vectors_are_run_lengths s3Board 0 0 (by decide) (by decide)).1
  rw [h]
  decide

/-! ## Board construction -/

theorem gen_empty_board_vec (width height : Nat) :
    (Board.gen_empty width height).board_vec
      = List.replicate (width * height) ⟨true, true, false⟩ := by
  show (List.range (width * height)).map _ = _
  rw [show (fun (_ : Nat) => (⟨true, true, false⟩ : Tile))
      = Function.const Nat ⟨true, true, false⟩ from rfl]
  rw [List.map_const, List.length_range]

theorem new_board_vec (W H K : Nat) (ids : List Nat) :
    (Board.new W H K ids).board_vec
      = modifyAll (List.replicate (W * H) ⟨true, true, false⟩) (ids.take K)
          (fun t => { t with empty := false }) := by
  show (Board.fill_boxes_randomly _ _ _).board_vec = _
  rw [Board.fill_boxes_randomly, gen_empty_board_vec]

theorem new_board_vec_eq_map (W H K : Nat) (ids : List Nat) :
    (Board.new W H K ids).board_vec
      = (List.range (W * H)).map
          (fun i => if i ∈ ids.take K then ⟨true, false, false⟩ else ⟨true, true, false⟩) := by
  rw [new_board_vec]
  apply List.ext_getElem?
  intro n
  have hmod := modifyAll_getElem? (ids.take K)
    (List.replicate (W * H) (⟨true, true, false⟩ : Tile))
    (fun t => { t with empty := false }) (fun x => rfl) n
  rw [hmod, List.getElem?_map]
  by_cases hlt : n < W * H
  · rw [List.getElem?_range hlt, List.getElem?_replicate, if_pos hlt]
    by_cases hmem : n ∈ ids.take K <;> simp [hmem]
  · have h1 : (List.replicate (W * H) (⟨true, true, false⟩ : Tile))[n]? = none := by
      simp [List.getElem?_replicate, hlt]
    have h2 : (List.range (W * H))[n]? = none := by
      rw [List.getElem?_eq_none]
      simpa using Nat.le_of_not_lt hlt
    rw [h1, h2]
    simp

theorem new_board_vec_length (W H K : Nat) (ids : List Nat) :
    (Board.new W H K ids).board_vec.length = W * H := by
  rw [new_board_vec, length_modifyAll, List.length_replicate]

theorem new_countFilled (W H K : Nat) (ids : List Nat) (hK : K ≤ W * H)
    (hperm : List.Perm ids (List.range (W * H))) :
    countFilled (Board.new W H K ids).board_vec = K := by
  rw [countFilled, new_board_vec_eq_map, List.countP_map]
  have hfun : ((fun t : Tile => !t.empty)
      ∘ fun i => if i ∈ ids.take K then (⟨true, false, false⟩ : Tile) else ⟨true, true, false⟩)
      = fun i => decide (i ∈ ids.take K) := by
    funext i
    by_cases h : i ∈ ids.take K <;> simp [h]
  rw [hfun, List.countP_eq_length_filter]
  have hnodup_ids : ids.Nodup := hperm.symm.nodup (List.nodup_range _)
  have hnodup_tk : (ids.take K).Nodup :=
    List.Nodup.sublist (List.take_sublist K ids) hnodup_ids
  have hfilter_nodup :
      ((List.range (W * H)).filter (fun i => decide (i ∈ ids.take K))).Nodup :=
    (List.nodup_range _).filter _
  have hpermf :
      ((List.range (W * H)).filter (fun i => decide (i ∈ ids.take K))).Perm (ids.take K) := by
    rw [List.perm_ext_iff_of_nodup hfilter_nodup hnodup_tk]
    intro a
    simp only [List.mem_filter, List.mem_range, decide_eq_true_eq]
    constructor
    · rintro ⟨-, h⟩
      exact h
    · intro h
      refine ⟨?_, h⟩
      exact List.mem_range.mp (hperm.mem_iff.mp (List.mem_of_mem_take h))
  rw [hpermf.length_eq, List.length_take, hperm.length_eq, List.length_range]
  omega

/-- C3: for W ≥ 1, H ≥ 1, 0 ≤ K ≤ W·H and any shuffled permutation `ids` of
the cell indices, `Board::new` yields a cell vector of length exactly W·H,
with exactly K filled cells, every cell hidden and no cell marked. -/
theorem board_new_spec (W H K : Nat) (ids : List Nat)
    (hW : 1 ≤ W) (hH : 1 ≤ H) (hK : K ≤ W * H)
    (hperm : List.Perm ids (List.range (W * H))) :
    (Board.new W H K ids).board_vec.length = W * H
    ∧ countFilled (Board.new W H K ids).board_vec = K
    ∧ ∀ t ∈ (Board.new W H K ids).board_vec, t.hidden = true ∧ t.marked = false := by
  refine ⟨new_board_vec_length W H K ids, new_countFilled W H K ids hK hperm, ?_⟩
  rw [new_board_vec_eq_map]
  intro t ht
  rcases List.mem_map.mp ht with ⟨i, hi, rfl⟩
  by_cases h : i ∈ ids.take K <;> simp [h]

/-- Witness for C3 at W=2, H=2, K=2 with the shuffle `[3,1,0,2]`. -/
theorem board_new_spec_witness :
    1 ≤ 2 ∧ 2 ≤ 2 * 2 ∧ List.Perm [3, 1, 0, 2] (List.range (2 * 2))
    ∧ ((Board.new 2 2 2 [3, 1, 0, 2]).board_vec.length = 2 * 2
      ∧ countFilled (Board.new 2 2 2 [3, 1, 0, 2]).board_vec = 2
      ∧ ∀ t ∈ (Board.new 2 2 2 [3, 1, 0, 2]).board_vec, t.hidden = true ∧ t.marked = false) :=
  ⟨by decide, by decide, by decide,
    board_new_spec 2 2 2 [3, 1, 0, 2] (by decide) (by decide) (by decide) (by decide)⟩

/-- C10: when K exceeds W·H, `Board::new` still completes: the `take` of the
shuffled id list saturates at all W·H indices, so every cell is filled, while
the stored `filled_count` field keeps the requested K, exceeding the actual
number of filled cells. -/
theorem board_new_overfull (W H K : Nat) (ids : List Nat)
    (hW : 1 ≤ W) (hH : 1 ≤ H) (hK : W * H < K)
    (hperm : List.Perm ids (List.range (W * H))) :
    (Board.new W H K ids).filled_count = K
    ∧ (∀ t ∈ (Board.new W H K ids).board_vec, t.empty = false)
    ∧ countFilled (Board.new W H K ids).board_vec = W * H
    ∧ countFilled (Board.new W H K ids).board_vec < K := by
  have htake : ids.take K = ids :=
    List.take_of_length_le (by rw [hperm.length_eq, List.length_range]; omega)
  have hall : ∀ t ∈ (Board.new W H K ids).board_vec, t.empty = false := by
    rw [new_board_vec_eq_map]
    intro t ht
    rcases List.mem_map.mp ht with ⟨i, hi, rfl⟩
    have hmem : i ∈ ids.take K := by
      rw [htake]
      exact hperm.mem_iff.mpr hi
    simp [hmem]
  have hcount : countFilled (Board.new W H K ids).board_vec = W * H := by
    rw [countFilled]
    rw [List.countP_eq_length.mpr (fun a ha => by simp [hall a ha])]
    exact new_board_vec_length W H K ids
  exact ⟨rfl, hall, hcount, by omega⟩

/-- Witness for C10 at W=1, H=1, K=2 with the shuffle `[0]`. -/
theorem board_new_overfull_witness :
    1 ≤ 1 ∧ 1 * 1 < 2 ∧ List.Perm [0] (List.range (1 * 1))
    ∧ ((Board.new 1 1 2 [0]).filled_count = 2
      ∧ (∀ t ∈ (Board.new 1 1 2 [0]).board_vec, t.empty = false)
      ∧ countFilled (Board.new 1 1 2 [0]).board_vec = 1 * 1
      ∧ countFilled (Board.new 1 1 2 [0]).board_vec < 2) :=
  ⟨by decide, by decide, by decide,
    board_new_overfull 1 1 2 [0] (by decide) (by decide) (by decide) (by decide)⟩

/-! ## Win-check lemmas -/

theorem wonPred_iff (t : Tile) :
    wonPred t = true ↔ (t.empty = false ∧ t.hidden = false) ∨ (t.empty = true ∧ t.hidden = true) := by
  simp [wonPred]

theorem lostPred_iff (t : Tile) :
    lostPred t = true ↔ t.empty = true ∧ t.hidden = false := by
  simp [lostPred]

theorem all_wonPred_iff (bv : List Tile) :
    bv.all wonPred = true
      ↔ ∀ t ∈ bv, (t.empty = false ∧ t.hidden = false) ∨ (t.empty = true ∧ t.hidden = true) := by
  rw [List.all_eq_true]
  constructor
  · intro h t ht
    exact (wonPred_iff t).mp (h t ht)
  · intro h t ht
    exact (wonPred_iff t).mpr (h t ht)

theorem any_lostPred_iff (bv : List Tile) :
    bv.any lostPred = true ↔ ∃ t ∈ bv, t.empty = true ∧ t.hidden = false := by
  rw [List.any_eq_true]
  constructor
  · rintro ⟨t, ht, hp⟩
    exact ⟨t, ht, (lostPred_iff t).mp hp⟩
  · rintro ⟨t, ht, hp⟩
    exact ⟨t, ht, (lostPred_iff t).mpr hp⟩

theorem wincheck_eq_won (g : Game) (hb : g.board.board_vec.all wonPred = true) :
    g.wincheck = { g with winstate := Winstate.Won, board := { g.board with board_vec := modifyAll g.board.board_vec (List.range (g.board.width * g.board.height)) fun t => { t with hidden := false } } } := by
  rw [Game.wincheck, if_pos hb]

theorem wincheck_eq_lost (g : Game) (hb : g.board.board_vec.all wonPred = false)
    (hq : g.board.board_vec.any lostPred = true) :
    g.wincheck = { g with winstate := Winstate.Lost } := by
  rw [Game.wincheck, if_neg (by simp [hb]), if_pos hq]

theorem wincheck_eq_inprogress (g : Game) (hb : g.board.board_vec.all wonPred = false)
    (hq : g.board.board_vec.any lostPred = false) :
    g.wincheck = { g with winstate := Winstate.InProgress } := by
  rw [Game.wincheck, if_neg (by simp [hb]), if_neg (by simp [hq])]

/-- C1: the win-check run after every Reveal and Mark sets `Won` exactly when
all cells satisfy `(filled ∧ ¬hidden) ∨ (¬filled ∧ hidden)` (with
`filled = !empty`), and then reveals every cell; otherwise `Lost` when some
cell is empty and revealed; otherwise `InProgress`.  The `Won` test is the
first branch of the `if`, so it is evaluated before the `Lost` test, as the
conditional structure of the statement records. -/
theorem wincheck_spec (g : Game)
    (hlen : g.board.board_vec.length = g.board.width * g.board.height) :
    ((∀ t ∈ g.board.board_vec, (t.empty = false ∧ t.hidden = false) ∨ (t.empty = true ∧ t.hidden = true)) →
      g.wincheck.winstate = Winstate.Won
        ∧ ∀ t ∈ g.wincheck.board.board_vec, t.hidden = false)
    ∧ ((¬ ∀ t ∈ g.board.board_vec, (t.empty = false ∧ t.hidden = false) ∨ (t.empty = true ∧ t.hidden = true)) →
        (∃ t ∈ g.board.board_vec, t.empty = true ∧ t.hidden = false) →
        g.wincheck.winstate = Winstate.Lost)
    ∧ ((¬ ∀ t ∈ g.board.board_vec, (t.empty = false ∧ t.hidden = false) ∨ (t.empty = true ∧ t.hidden = true)) →
        (¬ ∃ t ∈ g.board.board_vec, t.empty = true ∧ t.hidden = false) →
        g.wincheck.winstate = Winstate.InProgress) := by
  refine ⟨?_, ?_, ?_⟩
  · intro hall
    have hb : g.board.board_vec.all wonPred = true := (all_wonPred_iff _).mpr hall
    rw [wincheck_eq_won g hb]
    refine ⟨rfl, ?_⟩
    intro t ht
    obtain ⟨i, hi⟩ := List.mem_iff_getElem?.mp ht
    have hmod := modifyAll_getElem? (List.range (g.board.width * g.board.height))
      g.board.board_vec (fun t => { t with hidden := false }) (fun x => rfl) i
    rw [hmod] at hi
    have hilt : i < g.board.board_vec.length := by
      by_contra hge
      rw [if_neg (fun hmem => hge (by rw [hlen]; exact List.mem_range.mp hmem)),
        List.getElem?_eq_none (Nat.le_of_not_lt hge)] at hi
      exact Option.noConfusion hi
    rw [if_pos (List.mem_range.mpr (by rw [← hlen]; exact hilt))] at hi
    cases ho : g.board.board_vec[i]? with
    | none => rw [ho] at hi; exact Option.noConfusion hi
    | some x =>
      rw [ho, Option.map_some'] at hi
      cases hi
      rfl
  · intro hnall hex
    have hb : g.board.board_vec.all wonPred = false := by
      cases h : g.board.board_vec.all wonPred
      · rfl
      · exact absurd ((all_wonPred_iff _).mp h) hnall
    have hq : g.board.board_vec.any lostPred = true := (any_lostPred_iff _).mpr hex
    rw [wincheck_eq_lost g hb hq]
  · intro hnall hnex
    have hb : g.board.board_vec.all wonPred = false := by
      cases h : g.board.board_vec.all wonPred
      · rfl
      · exact absurd ((all_wonPred_iff _).mp h) hnall
    have hq : g.board.board_vec.any lostPred = false := by
      cases h : g.board.board_vec.any lostPred
      · rfl
      · exact absurd ((any_lostPred_iff _).mp h) hnex
    rw [wincheck_eq_inprogress g hb hq]

/-- Concrete game for the C1 witness: 1×1 board, the filled cell revealed.
Board fields: `board_vec, width, height, filled_count, vertical_count,
horizontal_count`; menu fields: `width_input, height_input, start_pressed,
filled_count_input`. -/
def c1Game : Game :=
  ⟨⟨[⟨false, false, false⟩], 1, 1, 1, [[1]], [[1]]⟩, ⟨"1", "1", true, "1"⟩, Winstate.InProgress⟩

/-- Witness for C1 at a concrete 1×1 game satisfying the length invariant. -/
theorem wincheck_spec_witness :
    c1Game.board.board_vec.length = c1Game.board.width * c1Game.board.height
    ∧ (((∀ t ∈ c1Game.board.board_vec, (t.empty = false ∧ t.hidden = false) ∨ (t.empty = true ∧ t.hidden = true)) →
        c1Game.wincheck.winstate = Winstate.Won
          ∧ ∀ t ∈ c1Game.wincheck.board.board_vec, t.hidden = false)
      ∧ ((¬ ∀ t ∈ c1Game.board.board_vec, (t.empty = false ∧ t.hidden = false) ∨ (t.empty = true ∧ t.hidden = true)) →
          (∃ t ∈ c1Game.board.board_vec, t.empty = true ∧ t.hidden = false) →
          c1Game.wincheck.winstate = Winstate.Lost)
      ∧ ((¬ ∀ t ∈ c1Game.board.board_vec, (t.empty = false ∧ t.hidden = false) ∨ (t.empty = true ∧ t.hidden = true)) →
          (¬ ∃ t ∈ c1Game.board.board_vec, t.empty = true ∧ t.hidden = false) →
          c1Game.wincheck.winstate = Winstate.InProgress)) :=
  ⟨by decide, wincheck_spec c1Game (by decide)⟩

/-! ## Terminal absorption -/

theorem wincheck_winstate_lost (g : Game)
    (h : ∃ t ∈ g.board.board_vec, t.empty = true ∧ t.hidden = false) :
    g.wincheck.winstate = Winstate.Lost := by
  have hq : g.board.board_vec.any lostPred = true := (any_lostPred_iff _).mpr h
  have hb : g.board.board_vec.all wonPred = false := by
    cases hab : g.board.board_vec.all wonPred
    · rfl
    · obtain ⟨t, ht, he, hh⟩ := h
      rcases (all_wonPred_iff _).mp hab t ht with ⟨h1, h2⟩ | ⟨h1, h2⟩
      · rw [he] at h1
        exact Bool.noConfusion h1
      · rw [hh] at h2
        exact Bool.noConfusion h2
  rw [wincheck_eq_lost g hb hq]

theorem wincheck_terminal_of_all_revealed (g : Game)
    (h : ∀ t ∈ g.board.board_vec, t.hidden = false) :
    g.wincheck.winstate = Winstate.Won ∨ g.wincheck.winstate = Winstate.Lost := by
  cases hb : g.board.board_vec.all wonPred
  · right
    obtain ⟨t, ht, hpt⟩ := List.all_eq_false.mp hb
    have hhid := h t ht
    have hempty : t.empty = true := by
      cases he : t.empty
      · exact absurd ((wonPred_iff t).mpr (Or.inl ⟨he, hhid⟩)) hpt
      · rfl
    exact wincheck_winstate_lost g ⟨t, ht, hempty, hhid⟩
  · left
    rw [wincheck_eq_won g hb]

/-- C4 (amended): from a reachable terminal state (a `Won` state has every
cell revealed; a `Lost` state has a revealed empty cell), a delivered
in-range Reveal or Mark leaves the winstate in `{Won, Lost}`: it never
returns to `InProgress`.  It does not always stay in the same terminal
state — from `Won` on a board containing an empty cell the re-run win-check
yields `Lost` (see the counterexample). -/
theorem terminal_stays_terminal (g : Game) (id : Nat)
    (hid : id < g.board.board_vec.length)
    (hterm : (g.winstate = Winstate.Won ∧ ∀ t ∈ g.board.board_vec, t.hidden = false)
      ∨ (g.winstate = Winstate.Lost ∧ ∃ t ∈ g.board.board_vec, t.empty = true ∧ t.hidden = false)) :
    (∀ g', g.reveal id = some g' → g'.winstate = Winstate.Won ∨ g'.winstate = Winstate.Lost)
    ∧ (∀ g', g.mark id = some g' → g'.winstate = Winstate.Won ∨ g'.winstate = Winstate.Lost) := by
  constructor
  · intro g' hg'
    rw [Game.reveal, if_pos hid] at hg'
    injection hg' with hg'
    subst hg'
    rcases hterm with ⟨-, hrev⟩ | ⟨-, hex⟩
    · exact wincheck_terminal_of_all_revealed _
        (modifyAt_forall_mem (fun t => t.hidden = false)
          (fun t => { t with hidden := false }) (fun x _ => rfl)
          g.board.board_vec id hrev)
    · exact Or.inr (wincheck_winstate_lost _
        (modifyAt_exists_mem (fun t => t.empty = true ∧ t.hidden = false)
          (fun t => { t with hidden := false }) (fun x hx => ⟨hx.1, rfl⟩)
          g.board.board_vec id hex))
  · intro g' hg'
    rw [Game.mark, if_pos hid] at hg'
    injection hg' with hg'
    subst hg'
    rcases hterm with ⟨-, hrev⟩ | ⟨-, hex⟩
    · exact wincheck_terminal_of_all_revealed _
        (modifyAt_forall_mem (fun t => t.hidden = false)
          (fun t => { t with marked := !t.marked }) (fun x hx => hx)
          g.board.board_vec id hrev)
    · exact Or.inr (wincheck_winstate_lost _
        (modifyAt_exists_mem (fun t => t.empty = true ∧ t.hidden = false)
          (fun t => { t with marked := !t.marked }) (fun x hx => hx)
          g.board.board_vec id hex))

/-- Reachable `Won` state on a 2×1 board with one empty cell: the win-check
that produced `Won` revealed every cell, including the empty one. -/
def c4WonGame : Game :=
  ⟨⟨[⟨false, false, false⟩, ⟨false, true, false⟩], 2, 1, 1, [[1], []], [[1]]⟩, ⟨"2", "1", true, "1"⟩, Winstate.Won⟩

/-- Counterexample for C4 as frozen: from this reachable `Won` state a
delivered `Mark(0)` moves the winstate to `Lost` — the session does
transition between terminal states. -/
theorem terminal_stays_terminal_cex :
    c4WonGame.winstate = Winstate.Won
    ∧ (∀ t ∈ c4WonGame.board.board_vec, t.hidden = false)
    ∧ (c4WonGame.mark 0).map Game.winstate = some Winstate.Lost := by
  decide

/-- Reachable `Lost` state on a 1×1 board: the empty cell was revealed. -/
def c4LostGame : Game :=
  ⟨⟨[⟨false, true, false⟩], 1, 1, 0, [[]], [[]]⟩, ⟨"1", "1", true, "0"⟩, Winstate.Lost⟩

/-- Witness for the amended C4 at a concrete reachable `Lost` state. -/
theorem terminal_stays_terminal_witness :
    (0 < c4LostGame.board.board_vec.length)
    ∧ ((c4LostGame.winstate = Winstate.Won ∧ ∀ t ∈ c4LostGame.board.board_vec, t.hidden = false)
        ∨ (c4LostGame.winstate = Winstate.Lost
            ∧ ∃ t ∈ c4LostGame.board.board_vec, t.empty = true ∧ t.hidden = false))
    ∧ ((∀ g', c4LostGame.reveal 0 = some g' → g'.winstate = Winstate.Won ∨ g'.winstate = Winstate.Lost)
        ∧ (∀ g', c4LostGame.mark 0 = some g' → g'.winstate = Winstate.Won ∨ g'.winstate = Winstate.Lost)) :=
  ⟨by decide, by decide, terminal_stays_terminal c4LostGame 0 (by decide) (by decide)⟩

/-! ## Frame lemmas -/

theorem modifyAt_map_proj {α β : Type} (proj : α → β) (l : List α) (a : Nat)
    (f : α → α) (hf : ∀ x, proj (f x) = proj x) (i : Nat) :
    ((modifyAt l a f)[i]?).map proj = (l[i]?).map proj := by
  rw [modifyAt_getElem?]
  by_cases h : i = a
  · rw [if_pos h]
    cases ho : l[i]? <;> simp [hf]
  · rw [if_neg h]

theorem modifyAll_map_proj {α β : Type} (proj : α → β) (l : List α) (ids : List Nat)
    (f : α → α) (hidem : ∀ x, f (f x) = f x) (hf : ∀ x, proj (f x) = proj x) (i : Nat) :
    ((modifyAll l ids f)[i]?).map proj = (l[i]?).map proj := by
  rw [modifyAll_getElem? ids l f hidem]
  by_cases h : i ∈ ids
  · rw [if_pos h]
    cases ho : l[i]? <;> simp [hf]
  · rw [if_neg h]

theorem wincheck_board_frame (g : Game) :
    g.wincheck.board.width = g.board.width
    ∧ g.wincheck.board.height = g.board.height
    ∧ g.wincheck.board.filled_count = g.board.filled_count
    ∧ g.wincheck.board.vertical_count = g.board.vertical_count
    ∧ g.wincheck.board.horizontal_count = g.board.horizontal_count := by
  rw [Game.wincheck]
  split
  · exact ⟨rfl, rfl, rfl, rfl, rfl⟩
  · split
    · exact ⟨rfl, rfl, rfl, rfl, rfl⟩
    · exact ⟨rfl, rfl, rfl, rfl, rfl⟩

theorem wincheck_map_proj {β : Type} (proj : Tile → β)
    (hproj : ∀ t : Tile, proj { t with hidden := false } = proj t) (g : Game) (i : Nat) :
    ((g.wincheck.board.board_vec)[i]?).map proj = (g.board.board_vec[i]?).map proj := by
  rw [Game.wincheck]
  split
  · exact modifyAll_map_proj proj g.board.board_vec
      (List.range (g.board.width * g.board.height))
      (fun t => { t with hidden := false }) (fun x => rfl) hproj i
  · split
    · rfl
    · rfl

/-- C9: in-range Reveal and Mark never change any cell's filled/empty ground
truth, nor the board's width, height, filled_count, column clue vector or row
clue vector; only the `hidden`/`marked` flags and the winstate can change. -/
theorem reveal_mark_frame (g : Game) (id : Nat)
    (hlen : g.board.board_vec.length = g.board.width * g.board.height)
    (hid : id < g.board.board_vec.length) :
    (∀ g', g.reveal id = some g' →
      g'.board.width = g.board.width ∧ g'.board.height = g.board.height
      ∧ g'.board.filled_count = g.board.filled_count
      ∧ g'.board.vertical_count = g.board.vertical_count
      ∧ g'.board.horizontal_count = g.board.horizontal_count
      ∧ ∀ i : Nat, (g'.board.board_vec[i]?).map Tile.empty = (g.board.board_vec[i]?).map Tile.empty)
    ∧ (∀ g', g.mark id = some g' →
      g'.board.width = g.board.width ∧ g'.board.height = g.board.height
      ∧ g'.board.filled_count = g.board.filled_count
      ∧ g'.board.vertical_count = g.board.vertical_count
      ∧ g'.board.horizontal_count = g.board.horizontal_count
      ∧ ∀ i : Nat, (g'.board.board_vec[i]?).map Tile.empty = (g.board.board_vec[i]?).map Tile.empty) := by
  constructor
  · intro g' hg'
    rw [Game.reveal, if_pos hid] at hg'
    injection hg' with hg'
    subst hg'
    obtain ⟨h1, h2, h3, h4, h5⟩ := wincheck_board_frame _
    refine ⟨h1, h2, h3, h4, h5, fun i => ?_⟩
    exact (wincheck_map_proj Tile.empty (fun t => rfl) _ i).trans
      (modifyAt_map_proj Tile.empty g.board.board_vec id
        (fun t => { t with hidden := false }) (fun x => rfl) i)
  · intro g' hg'
    rw [Game.mark, if_pos hid] at hg'
    injection hg' with hg'
    subst hg'
    obtain ⟨h1, h2, h3, h4, h5⟩ := wincheck_board_frame _
    refine ⟨h1, h2, h3, h4, h5, fun i => ?_⟩
    exact (wincheck_map_proj Tile.empty (fun t => rfl) _ i).trans
      (modifyAt_map_proj Tile.empty g.board.board_vec id
        (fun t => { t with marked := !t.marked }) (fun x => rfl) i)

/-- Concrete game for the C9 witness: fresh 2×1 board, one filled cell. -/
def c9Game : Game :=
  ⟨⟨[⟨true, false, false⟩, ⟨true, true, false⟩], 2, 1, 1, [[1], []], [[1]]⟩, ⟨"2", "1", true, "1"⟩, Winstate.InProgress⟩

/-- Witness for C9 at a concrete game with `Reveal(0)` and `Mark(0)`. -/
theorem reveal_mark_frame_witness :
    (c9Game.board.board_vec.length = c9Game.board.width * c9Game.board.height)
    ∧ (0 < c9Game.board.board_vec.length)
    ∧ ((∀ g', c9Game.reveal 0 = some g' →
        g'.board.width = c9Game.board.width ∧ g'.board.height = c9Game.board.height
        ∧ g'.board.filled_count = c9Game.board.filled_count
        ∧ g'.board.vertical_count = c9Game.board.vertical_count
        ∧ g'.board.horizontal_count = c9Game.board.horizontal_count
        ∧ ∀ i : Nat, (g'.board.board_vec[i]?).map Tile.empty = (c9Game.board.board_vec[i]?).map Tile.empty)
      ∧ (∀ g', c9Game.mark 0 = some g' →
        g'.board.width = c9Game.board.width ∧ g'.board.height = c9Game.board.height
        ∧ g'.board.filled_count = c9Game.board.filled_count
        ∧ g'.board.vertical_count = c9Game.board.vertical_count
        ∧ g'.board.horizontal_count = c9Game.board.horizontal_count
        ∧ ∀ i : Nat, (g'.board.board_vec[i]?).map Tile.empty = (c9Game.board.board_vec[i]?).map Tile.empty)) :=
  ⟨by decide, by decide, reveal_mark_frame c9Game 0 (by decide) (by decide)⟩

/-! ## Marked flags survive reveals -/

/-- C5 (amended): Reveal never changes any cell's `marked` flag — neither the
revealed cell's own nor, via the Won-branch auto-reveal, anyone else's.
Consequently a cell marked while hidden keeps `marked = true` once revealed,
so the frozen invariant `marked → hidden` is *not* preserved by the code (the
counterexample exhibits a reachable state with a marked revealed cell); the
front-end must treat `marked` on a revealed cell as meaningless. -/
theorem reveal_preserves_marked (g : Game) (id : Nat) (g' : Game)
    (h : g.reveal id = some g') (i : Nat) :
    (g'.board.board_vec[i]?).map Tile.marked = (g.board.board_vec[i]?).map Tile.marked := by
  rw [Game.reveal] at h
  by_cases hid : id < g.board.board_vec.length
  · rw [if_pos hid] at h
    injection h with h
    subst h
    exact (wincheck_map_proj Tile.marked (fun t => rfl) _ i).trans
      (modifyAt_map_proj Tile.marked g.board.board_vec id
        (fun t => { t with hidden := false }) (fun x => rfl) i)
  · rw [if_neg hid] at h
    exact Option.noConfusion h

/-- Fresh reachable 2×1 game: one filled hidden cell, one empty hidden cell. -/
def c5Game : Game :=
  ⟨⟨[⟨true, false, false⟩, ⟨true, true, false⟩], 2, 1, 1, [[1], []], [[1]]⟩, ⟨"2", "1", true, "1"⟩, Winstate.InProgress⟩

/-- Counterexample for C5 as frozen: starting from a fresh board satisfying
`marked → hidden`, the reachable command sequence `Mark(1); Reveal(0)` ends
in a state where cell 1 is marked and revealed (the Won auto-reveal cleared
`hidden` but not `marked`), violating the invariant. -/
theorem reveal_preserves_marked_cex :
    c5Game.board.board_vec.all (fun t => !t.marked || t.hidden) = true
    ∧ ((c5Game.mark 1).bind (fun g => g.reveal 0)).map
        (fun g => g.board.board_vec.any fun t => t.marked && !t.hidden) = some true := by
  decide

/-- `c5Game` after `Mark(1)`. -/
def c5Marked : Game :=
  ⟨⟨[⟨true, false, false⟩, ⟨true, true, true⟩], 2, 1, 1, [[1], []], [[1]]⟩, ⟨"2", "1", true, "1"⟩, Winstate.InProgress⟩

/-- `c5Marked` after `Reveal(0)`: the win-check auto-revealed cell 1, which
keeps `marked = true`. -/
def c5Revealed : Game :=
  ⟨⟨[⟨false, false, false⟩, ⟨false, true, true⟩], 2, 1, 1, [[1], []], [[1]]⟩, ⟨"2", "1", true, "1"⟩, Winstate.Won⟩

/-- Witness for the amended C5 at the concrete reveal `c5Marked → c5Revealed`. -/
theorem reveal_preserves_marked_witness :
    c5Marked.reveal 0 = some c5Revealed
    ∧ (c5Revealed.board.board_vec[1]?).map Tile.marked
      = (c5Marked.board.board_vec[1]?).map Tile.marked :=
  ⟨by decide, reveal_preserves_marked c5Marked 0 c5Revealed (by decide) 1⟩

/-! ## Out-of-range commands -/

/-- C6 (amended): Reveal and Mark with an out-of-range id do not complete:
the `Vec` indexing panics before any cell is written (modelled by `none`),
so no cell and no winstate is modified — but the commands are not completing
no-ops. -/
theorem out_of_range_panics (g : Game) (id : Nat)
    (hid : g.board.board_vec.length ≤ id) :
    g.reveal id = none ∧ g.mark id = none := by
  constructor
  · rw [Game.reveal, if_neg (by omega)]
  · rw [Game.mark, if_neg (by omega)]

/-- Concrete 1×1 game for C6. -/
def c6Game : Game :=
  ⟨⟨[⟨true, true, false⟩], 1, 1, 0, [[]], [[]]⟩, ⟨"1", "1", true, "0"⟩, Winstate.InProgress⟩

/-- Counterexample for C6 as frozen: `Reveal(5)` on a 1×1 board does not
complete unchanged (`some c6Game`) — it panics (`none`); likewise `Mark(5)`. -/
theorem out_of_range_panics_cex :
    c6Game.reveal 5 = none ∧ c6Game.mark 5 = none
    ∧ ¬ c6Game.reveal 5 = some c6Game ∧ ¬ c6Game.mark 5 = some c6Game := by
  decide

/-- Witness for the amended C6 at `id = 5` on the 1×1 board. -/
theorem out_of_range_panics_witness :
    c6Game.board.board_vec.length ≤ 5
    ∧ (c6Game.reveal 5 = none ∧ c6Game.mark 5 = none) :=
  ⟨by decide, out_of_range_panics c6Game 5 (by decide)⟩

/-! ## StartPressed -/

/-- C7 (amended): when all three menu inputs parse as non-negative integers,
`StartPressed` rebuilds the board with `Board::new` on the parsed triple and
sets `started`; when any input fails to parse, the update panics on
`.unwrap()` (modelled by `none`) — it does not complete with the session
state unchanged. -/
theorem start_pressed_spec (g : Game) (ids : List Nat) :
    (∀ W H K : Nat, parseNat? g.menu.width_input = some W →
      parseNat? g.menu.height_input = some H →
      parseNat? g.menu.filled_count_input = some K →
      g.startPressed ids = some { g with board := Board.new W H K ids, menu := { g.menu with start_pressed := true } })
    ∧ ((parseNat? g.menu.width_input = none ∨ parseNat? g.menu.height_input = none
        ∨ parseNat? g.menu.filled_count_input = none) →
      g.startPressed ids = none) := by
  constructor
  · intro W H K hW hH hK
    rw [Game.startPressed, hW, hH, hK]
  · intro h
    rcases h with h | h | h
    · rw [Game.startPressed, h]
    · cases hw : parseNat? g.menu.width_input with
      | none => rw [Game.startPressed, hw]
      | some w => rw [Game.startPressed, hw, h]
    · cases hw : parseNat? g.menu.width_input with
      | none => rw [Game.startPressed, hw]
      | some w =>
        cases hh : parseNat? g.menu.height_input with
        | none => rw [Game.startPressed, hw, hh]
        | some h' => rw [Game.startPressed, hw, hh, h]

/-- Menu-phase game with parseable inputs "2", "3", "4". -/
def c7Game : Game :=
  ⟨⟨[], 0, 0, 0, [], []⟩, ⟨"2", "3", false, "4"⟩, Winstate.InProgress⟩

/-- Witness for the amended C7, success path, with shuffle `[0,...,5]`. -/
theorem start_pressed_spec_witness :
    parseNat? c7Game.menu.width_input = some 2
    ∧ parseNat? c7Game.menu.height_input = some 3
    ∧ parseNat? c7Game.menu.filled_count_input = some 4
    ∧ c7Game.startPressed [0, 1, 2, 3, 4, 5] = some { c7Game with board := Board.new 2 3 4 [0, 1, 2, 3, 4, 5], menu := { c7Game.menu with start_pressed := true } } :=
  ⟨by decide, by decide, by decide,
    (start_pressed_spec c7Game [0, 1, 2, 3, 4, 5]).1 2 3 4 (by decide) (by decide) (by decide)⟩

/-- Menu-phase game whose width input does not parse. -/
def c7BadGame : Game :=
  ⟨⟨[], 0, 0, 0, [], []⟩, ⟨"abc", "3", false, "4"⟩, Winstate.InProgress⟩

/-- Counterexample for C7 as frozen: with an unparseable width input,
`StartPressed` does not complete leaving the session unchanged — it panics
(`none`), and `started` never becomes observable at all. -/
theorem start_pressed_cex :
    c7BadGame.startPressed [] = none
    ∧ ¬ c7BadGame.startPressed [] = some c7BadGame := by
  decide

/-! ## Mark toggling -/

/-- C8 (amended): with winstate `InProgress` and an in-range id, on a board
that is not already in the winning configuration and has no revealed empty
cell, `Mark(id)` toggles exactly `cells[id].marked` (all other fields of the
session equal, as the explicit record equality states) and keeps the
winstate `InProgress`; a second `Mark(id)` restores the original cell vector
(and the `InProgress` winstate).  When the board is already in the winning
configuration — e.g. a fresh board with K = 0 — the re-run win-check instead
sets `Won` and reveals all cells; see the counterexample. -/
theorem mark_toggle_spec (g : Game) (id : Nat)
    (hwin : g.winstate = Winstate.InProgress)
    (hid : id < g.board.board_vec.length)
    (hnw : g.board.board_vec.all wonPred = false)
    (hnl : g.board.board_vec.any lostPred = false) :
    g.mark id = some { g with winstate := Winstate.InProgress, board := { g.board with board_vec := modifyAt g.board.board_vec id fun t => { t with marked := !t.marked } } }
    ∧ Game.mark { g with winstate := Winstate.InProgress, board := { g.board with board_vec := modifyAt g.board.board_vec id fun t => { t with marked := !t.marked } } } id = some { g with winstate := Winstate.InProgress } := by
  have hb1 : (modifyAt g.board.board_vec id fun t => { t with marked := !t.marked }).all wonPred = false := by
    rw [all_modifyAt g.board.board_vec id (fun t => { t with marked := !t.marked })
      wonPred (fun x => rfl)]
    exact hnw
  have hq1 : (modifyAt g.board.board_vec id fun t => { t with marked := !t.marked }).any lostPred = false := by
    rw [any_modifyAt g.board.board_vec id (fun t => { t with marked := !t.marked })
      lostPred (fun x => rfl)]
    exact hnl
  constructor
  · rw [Game.mark, if_pos hid]
    exact congrArg some (wincheck_eq_inprogress _ hb1 hq1)
  · have hid2 : id < (modifyAt g.board.board_vec id fun t => { t with marked := !t.marked }).length := by
      rw [length_modifyAt]
      exact hid
    rw [Game.mark, if_pos hid2]
    have hdouble : modifyAt (modifyAt g.board.board_vec id fun t => { t with marked := !t.marked }) id (fun t => { t with marked := !t.marked }) = g.board.board_vec :=
      modifyAt_modifyAt_self _ _ _ (fun x => by cases x; simp)
    rw [hdouble]
    exact congrArg some (wincheck_eq_inprogress _ hnw hnl)

/-- Fresh 2×1 game for the C8 witness: one filled hidden, one empty hidden. -/
def c8Game : Game :=
  ⟨⟨[⟨true, false, false⟩, ⟨true, true, false⟩], 2, 1, 1, [[1], []], [[1]]⟩, ⟨"2", "1", true, "1"⟩, Winstate.InProgress⟩

/-- Witness for the amended C8: `Mark(0)` toggles the mark and a second
`Mark(0)` restores it, winstate staying `InProgress`. -/
theorem mark_toggle_spec_witness :
    (c8Game.winstate = Winstate.InProgress
      ∧ 0 < c8Game.board.board_vec.length
      ∧ c8Game.board.board_vec.all wonPred = false
      ∧ c8Game.board.board_vec.any lostPred = false)
    ∧ (c8Game.mark 0 = some { c8Game with winstate := Winstate.InProgress, board := { c8Game.board with board_vec := modifyAt c8Game.board.board_vec 0 fun t => { t with marked := !t.marked } } }
      ∧ Game.mark { c8Game with winstate := Winstate.InProgress, board := { c8Game.board with board_vec := modifyAt c8Game.board.board_vec 0 fun t => { t with marked := !t.marked } } } 0 = some { c8Game with winstate := Winstate.InProgress }) :=
  ⟨⟨rfl, by decide, by decide, by decide⟩,
    mark_toggle_spec c8Game 0 rfl (by decide) (by decide) (by decide)⟩

/-- A fresh 1×1 board with K = 0: every cell already satisfies the winning
condition (empty and hidden) while the winstate is still `InProgress`. -/
def c8ZeroGame : Game :=
  ⟨⟨[⟨true, true, false⟩], 1, 1, 0, [[]], [[]]⟩, ⟨"1", "1", true, "0"⟩, Winstate.InProgress⟩

/-- Counterexample for C8 as frozen: on the K = 0 board, `Mark(0)` does not
leave the winstate `InProgress` — the re-run win-check sets `Won` and also
flips the cell's `hidden` flag (a cell field other than `marked`). -/
theorem mark_toggle_cex :
    c8ZeroGame.winstate = Winstate.InProgress
    ∧ (c8ZeroGame.mark 0).map Game.winstate = some Winstate.Won
    ∧ (c8ZeroGame.mark 0).map (fun g => g.board.board_vec.map Tile.hidden) = some [false] := by
  decide

end Picross
